import Mathlib

/-!
Verification development for the OpenAPI-v3 type generator (`src/v3.ts`).

The generator is embedded shallowly: JavaScript objects become Lean structures
or inductives, JS object-maps become association lists carried in JS enumeration
order, and the two process-scoped accumulators (the operations table and the
external-file-key set) are threaded explicitly.  The recursive schema
transformer is given an explicit recursion budget (`fuel`); every theorem about
it quantifies over the budget, and on any concrete finite schema a large enough
budget reproduces the JS recursion exactly.

Helper modules of the repository (`utils.ts`, `property-mapper.ts`) are not
part of the provided source tree; the definitions below that embed them are
marked `Modelled from the spec:` and follow the specification text.
-/

set_option autoImplicit false

/-- The single-quote character, written via its code point. -/
def sqC : Char := Char.ofNat 39

/-- The backslash character, written via its code point. -/
def bsC : Char := Char.ofNat 92

/-- Single-quote as a one-character string. -/
def sqS : String := String.singleton sqC

/-- Backslash as a one-character string. -/
def bsS : String := String.singleton bsC

/-- A literal value inside an `enum` list: JS string, number or boolean.
Numeric enum members are modelled as integers (status/enumeration values in the
modelled domain are integral). -/
inductive EnumVal where
  | str (s : String)
  | int (n : Int)
  | bool (b : Bool)

/-- A JS schema-ish object as `v3.ts` consumes it (duck-typed): one node type
carrying every optional field the source reads.  `ref` embeds the JS field
`$ref`; `schemaField` embeds the JS field `schema` (a nested schema object, as
on parameter objects and parameter-shaped property values); `inLoc` embeds the
JS field `in`; `requiredFlag` embeds the boolean `required` of parameter
objects while `required` embeds the string-list `required` of object schemas
(the two typed usages of the one JS field, per the spec data model).
`additionalProperties` is `none` when the JS field is absent or `false`
(falsy), `some none` for the literal `true`, `some (some s)` for a schema. -/
inductive SchemaNode where
  | mk
    (ref : Option String)
    (type : Option String)
    (enum : Option (List EnumVal))
    (oneOf : Option (List SchemaNode))
    (anyOf : Option (List SchemaNode))
    (allOf : Option (List SchemaNode))
    (properties : Option (List (String × SchemaNode)))
    (required : Option (List String))
    (additionalProperties : Option (Option SchemaNode))
    (items : Option (Sum SchemaNode (List SchemaNode)))
    (nullable : Bool)
    (description : Option String)
    (schemaField : Option SchemaNode)
    (name : Option String)
    (inLoc : Option String)
    (requiredFlag : Option Bool)

def SchemaNode.ref : SchemaNode → Option String
  | .mk r _ _ _ _ _ _ _ _ _ _ _ _ _ _ _ => r

def SchemaNode.type : SchemaNode → Option String
  | .mk _ t _ _ _ _ _ _ _ _ _ _ _ _ _ _ => t

def SchemaNode.enum : SchemaNode → Option (List EnumVal)
  | .mk _ _ e _ _ _ _ _ _ _ _ _ _ _ _ _ => e

def SchemaNode.oneOf : SchemaNode → Option (List SchemaNode)
  | .mk _ _ _ o _ _ _ _ _ _ _ _ _ _ _ _ => o

def SchemaNode.anyOf : SchemaNode → Option (List SchemaNode)
  | .mk _ _ _ _ a _ _ _ _ _ _ _ _ _ _ _ => a

def SchemaNode.allOf : SchemaNode → Option (List SchemaNode)
  | .mk _ _ _ _ _ a _ _ _ _ _ _ _ _ _ _ => a

def SchemaNode.properties : SchemaNode → Option (List (String × SchemaNode))
  | .mk _ _ _ _ _ _ p _ _ _ _ _ _ _ _ _ => p

def SchemaNode.required : SchemaNode → Option (List String)
  | .mk _ _ _ _ _ _ _ r _ _ _ _ _ _ _ _ => r

def SchemaNode.additionalProperties : SchemaNode → Option (Option SchemaNode)
  | .mk _ _ _ _ _ _ _ _ a _ _ _ _ _ _ _ => a

def SchemaNode.items : SchemaNode → Option (Sum SchemaNode (List SchemaNode))
  | .mk _ _ _ _ _ _ _ _ _ i _ _ _ _ _ _ => i

def SchemaNode.nullable : SchemaNode → Bool
  | .mk _ _ _ _ _ _ _ _ _ _ n _ _ _ _ _ => n

def SchemaNode.description : SchemaNode → Option String
  | .mk _ _ _ _ _ _ _ _ _ _ _ d _ _ _ _ => d

def SchemaNode.schemaField : SchemaNode → Option SchemaNode
  | .mk _ _ _ _ _ _ _ _ _ _ _ _ s _ _ _ => s

def SchemaNode.name : SchemaNode → Option String
  | .mk _ _ _ _ _ _ _ _ _ _ _ _ _ n _ _ => n

def SchemaNode.inLoc : SchemaNode → Option String
  | .mk _ _ _ _ _ _ _ _ _ _ _ _ _ _ i _ => i

def SchemaNode.requiredFlag : SchemaNode → Option Bool
  | .mk _ _ _ _ _ _ _ _ _ _ _ _ _ _ _ r => r

/-- The node with every field absent (models `undefined` reaching `transform`,
which the transformer degrades to the empty type expression). -/
def emptyNode : SchemaNode :=
  .mk none none none none none none none none none none false none none none none none

/-- Modelled from the spec: doc-comment rendering (`utils.comment` is not under
`src/`); only its presence and payload matter to the claims. -/
def comment (text : String) : String :=
  "/**\n  * " ++ text ++ "\n  */\n"

/-- The source guards every comment emission with JS truthiness of the
description field: absent or empty-string descriptions emit nothing. -/
def commentIf (d : Option String) : String :=
  match d with
  | some t => if t = "" then "" else comment t
  | none => ""

/-- Modelled from the spec: union type constructor (`utils.tsUnionOf` is not
under `src/`); a union of the given type expressions. -/
def tsUnionOf (types : List String) : String :=
  String.intercalate " | " types

/-- Modelled from the spec: intersection type constructor
(`utils.tsIntersectionOf` is not under `src/`). -/
def tsIntersectionOf (types : List String) : String :=
  String.intercalate " & " types

/-- Modelled from the spec: the all-fields-optional wrapper used for `anyOf`
members (`utils.tsPartial` is not under `src/`). -/
def tsPartial (t : String) : String :=
  "Partial<" ++ t ++ ">"

/-- Modelled from the spec: homogeneous sequence type (`utils.tsArrayOf` is not
under `src/`). -/
def tsArrayOf (t : String) : String :=
  "(" ++ t ++ ")[]"

/-- Modelled from the spec: fixed-length positional (tuple) type
(`utils.tsTupleOf` is not under `src/`); one slot per element, order kept. -/
def tsTupleOf (types : List String) : String :=
  "[" ++ String.intercalate ", " types ++ "]"

/-- JS `String.prototype.split` with a (non-empty) literal separator, on
character lists: greedy left-to-right scan for non-overlapping separator
occurrences.  The budget, instantiated with the input length, makes the scan
structurally recursive (each step consumes at least one character). -/
def jsSplitF (sep : List Char) : Nat → List Char → List (List Char)
  | _, [] => [[]]
  | 0, cs => [cs]
  | fuel + 1, c :: rest =>
    if sep ≠ [] ∧ sep.isPrefixOf (c :: rest) then
      [] :: jsSplitF sep fuel ((c :: rest).drop sep.length)
    else
      match jsSplitF sep fuel rest with
      | [] => [[c]]
      | g :: gs => (c :: g) :: gs

/-- JS `s.split(sep)` for a non-empty literal separator. -/
def jsSplitStr (s sep : String) : List String :=
  (jsSplitF sep.data s.data.length s.data).map String.mk

/-- Drop a leading document-relative anchor `#/` from a reference string. -/
def dropAnchor (ref : String) : String :=
  if ref.take 2 = "#/" then ref.drop 2 else ref

/-- Modelled from the spec: internal-reference rewriting (`utils.transformRef`
is not under `src/`): split on `/`, drop the anchor, address each subsequent
segment as a successive indexed lookup under the given root. -/
def transformRef (ref : String) (root : String) : String :=
  match jsSplitStr (dropAnchor ref) "/" with
  | [] => root
  | p :: rest => root ++ p ++ String.join (rest.map (fun s => "[\"" ++ s ++ "\"]"))

/-- Strip a trailing `.json` extension from a relative document path
(the JS `replace(/\.json$/, "")`). -/
def stripJson (path : String) : String :=
  if path.length ≥ 5 ∧ path.drop (path.length - 5) = ".json" then
    path.take (path.length - 5)
  else path

/-- `Set.add` on the external-file-key accumulator, kept as a first-discovery
ordered list without duplicates. -/
def addKey (ext : List String) (k : String) : List String :=
  if k ∈ ext then ext else ext ++ [k]

/-- First-occurrence deduplication of a discovery sequence; folding `addKey`
over the sequence reproduces the JS `Set` contents in insertion order. -/
def dedupFirst (ks : List String) : List String :=
  ks.foldl addKey []

/-- Embeds `transformRefType` (v3.ts lines 259-275): external references (not
starting with `#`) are split at `#/`, their document key is stripped of the
`.json` suffix and added to the external-file-key set, and an
`external`-namespaced lookup is produced; internal references delegate to
`transformRef` with the given root. -/
def transformRefType (ext : List String) (ref : String) (root : String) :
    String × List String :=
  if ref.take 1 ≠ "#" then
    let pieces := jsSplitStr ref "#/"
    let relativePath := pieces.headD ""
    let fileKey := stripJson relativePath
    let ext2 := addKey ext fileKey
    match pieces[1]? with
    | some ip =>
      if ip ≠ "" then
        ("external[\"" ++ fileKey ++ "\"][\"" ++
          String.intercalate "\"][\"" (jsSplitStr ip "/") ++ "\"]", ext2)
      else
        ("external[\"" ++ fileKey ++ "\"]", ext2)
    | none => ("external[\"" ++ fileKey ++ "\"]", ext2)
  else
    (transformRef ref root, ext)

/-- `PRIMITIVES` (v3.ts lines 24-34): declared-type name to target primitive. -/
def PRIMITIVES : List (String × String) :=
  [("boolean", "boolean"), ("string", "string"),
   ("integer", "number"), ("number", "number")]

/-- The derived variant tags of the dispatch `switch`; a primitive tag carries
its type name (`"boolean"`, `"string"` or `"number"`), which the transformer
emits verbatim. -/
inductive NodeTag where
  | ref
  | prim (p : String)
  | enum
  | oneOf
  | anyOf
  | obj
  | arr
  deriving DecidableEq

/-- Modelled from the spec: the derived variant tag (`utils.nodeType` is not
under `src/`), by the fixed precedence of the spec data model:
enum, then oneOf, then anyOf, then allOf/properties/additionalProperties
(object), then array, then ref, then primitive-by-declared-type (via the
source's `PRIMITIVES` table). -/
def nodeType (node : SchemaNode) : Option NodeTag :=
  if node.enum.isSome then some .enum
  else if node.oneOf.isSome then some .oneOf
  else if node.anyOf.isSome then some .anyOf
  else if node.allOf.isSome ∨ node.properties.isSome ∨
      node.additionalProperties.isSome ∨ node.type = some "object" then some .obj
  else if node.items.isSome ∨ node.type = some "array" then some .arr
  else if node.ref.isSome then some .ref
  else
    match node.type with
    | some t => (PRIMITIVES.lookup t).map NodeTag.prim
    | none => none

/-- The global single-character regex replacement `replace(/'/g, "\\'")` of
v3.ts line 68, as the character-level map it denotes: every single-quote
character becomes a backslash-quote pair, all other characters are kept. -/
def escapeQuotes (cs : List Char) : List Char :=
  match cs with
  | [] => []
  | c :: rest =>
    if c = sqC then bsC :: sqC :: escapeQuotes rest
    else c :: escapeQuotes rest

/-- Rendering of a single enum member (v3.ts lines 66-69): numbers and
booleans verbatim, strings single-quoted with each internal single quote
replaced by a backslash-quote pair. -/
def enumLit (v : EnumVal) : String :=
  match v with
  | .int n => toString n
  | .bool b => if b then "true" else "false"
  | .str s => sqS ++ String.mk (escapeQuotes s.data) ++ sqS

/-- Body of a single-quoted string literal, read after the opening quote: a
plain character is anything except a quote, a backslash or a line terminator;
a backslash escapes the following character; the closing quote must end the
token.  This is the target language's single-quoted string-literal production
restricted to single-character escapes, which is all the generator can emit. -/
def litBody : List Char → Bool
  | [] => false
  | c :: rest =>
    if c = sqC then rest.isEmpty
    else if c = bsC then
      match rest with
      | [] => false
      | _ :: rest2 => litBody rest2
    else if c = Char.ofNat 10 ∨ c = Char.ofNat 13 then false
    else litBody rest

/-- Syntactic validity of a text as one single-quoted string literal. -/
def isSingleQuotedLit (s : String) : Bool :=
  match s.data with
  | c :: rest => c = sqC && litBody rest
  | [] => false

/-- The optionality test of `createKeys` (v3.ts line 123): the `?` marker is
emitted unless a required-name list is given and contains the key. -/
def requiredHas (required : Option (List String)) (key : String) : Bool :=
  match required with
  | some l => key ∈ l
  | none => false

/-- One field of `createKeys` (v3.ts lines 116-140), given the transformed
value type: optional doc comment, quoted name with optionality marker,
nullable wrapping, and the closing `;`. -/
def keyEntryText (required : Option (List String)) (key : String)
    (value : SchemaNode) (t : String) : String :=
  commentIf value.description ++
  "\"" ++ key ++ "\"" ++ (if requiredHas required key then "" else "?") ++ ": " ++
  (if value.nullable then "(" else "") ++ t ++
  (if value.nullable then ") | null" else "") ++ ";\n"

/-- Embeds `createKeys` (v3.ts lines 113-143), generic in the transformer so
the recursive schema transformer can pass itself in at a smaller budget.  The
value handed to the transformer is the field's own `schema` sub-object when
present, else the field entry itself.  The second component collects external
file keys in discovery order. -/
def createKeys (tf : SchemaNode → String × List String)
    (obj : List (String × SchemaNode)) (required : Option (List String)) :
    String × List String :=
  match obj with
  | [] => ("", [])
  | (key, value) :: rest =>
    let tv := tf (match value.schemaField with | some s => s | none => value)
    let restOut := createKeys tf rest required
    (keyEntryText required key value tv.1 ++ restOut.1, tv.2 ++ restOut.2)

/-- Concatenation of a list of text fragments in order. -/
def strConcat (l : List String) : String :=
  l.foldr (fun a b => a ++ b) ""

/-- Fall back to `any` on an empty transform result (the JS `|| "any"`). -/
def orAny (t : String) : String :=
  if t = "" then "any" else t

/-- Embeds the recursive `transform` (v3.ts lines 55-111) with an explicit
recursion budget.  The string component is the emitted type expression; the
list component is the sequence of external file keys discovered by the
traversal, in order (the JS code adds them to a shared `Set`; folding `addKey`
over this sequence reproduces that set, and by `transformRefType` the emitted
text never depends on the set's prior contents). -/
def transform (raw : Bool) : Nat → SchemaNode → String × List String
  | 0, _ => ("", [])
  | fuel + 1, node =>
    match nodeType node with
    | some .ref =>
      transformRefType [] (node.ref.getD "") (if raw then "schemas/" else "")
    | some (.prim p) => (p, [])
    | some .enum => (tsUnionOf ((node.enum.getD []).map enumLit), [])
    | some .oneOf =>
      let parts := (node.oneOf.getD []).map (fun n => transform raw fuel n)
      (tsUnionOf (parts.map Prod.fst), parts.flatMap Prod.snd)
    | some .anyOf =>
      let parts := (node.anyOf.getD []).map (fun n => transform raw fuel n)
      (tsIntersectionOf (parts.map (fun p => tsPartial p.1)), parts.flatMap Prod.snd)
    | some .obj =>
      if (node.properties.isNone ∨ (node.properties.getD []).length = 0) ∧
          node.allOf.isNone ∧ node.additionalProperties.isNone then
        ("\x7b [key: string]: any \x7d", [])
      else
        let properties := createKeys (fun n => transform raw fuel n)
          (node.properties.getD []) node.required
        let additional : List (String × List String) :=
          match node.additionalProperties with
          | none => []
          | some none => [("\x7b [key: string]: any;\x7d\n", [])]
          | some (some s) =>
            let ts := transform raw fuel s
            [("\x7b [key: string]: " ++ orAny ts.1 ++ ";\x7d\n", ts.2)]
        let allOfParts := (node.allOf.getD []).map (fun n => transform raw fuel n)
        let pieces := allOfParts ++
          (if properties.1 ≠ "" then [("\x7b " ++ properties.1 ++ " \x7d", properties.2)] else []) ++
          additional
        (tsIntersectionOf (pieces.map Prod.fst), pieces.flatMap Prod.snd)
    | some .arr =>
      match node.items with
      | some (.inr l) =>
        let parts := l.map (fun n => transform raw fuel n)
        (tsTupleOf (parts.map Prod.fst), parts.flatMap Prod.snd)
      | some (.inl s) =>
        let ts := transform raw fuel s
        (tsArrayOf ts.1, ts.2)
      | none => (tsArrayOf "any", [])
    | none => ("", [])

/-- One content-type map (the value of a `content` entry or of a request
body's content entry): the optional `schema` it carries. -/
structure MediaObj where
  schema : Option SchemaNode

/-- A request body: its optional content-type map (`content || {}` in the
source covers absence). -/
structure RequestBody where
  content : Option (List (String × MediaObj))

/-- A response object: optional description and optional content-type map. -/
structure Response where
  description : Option String
  content : Option (List (String × MediaObj))

/-- An operation.  `responses` is the JS object's entry list in enumeration
order; a `none` value embeds a null/absent response value (claim C10). -/
structure Operation where
  operationId : Option String
  description : Option String
  parameters : Option (List SchemaNode)
  requestBody : Option RequestBody
  responses : List (String × Option Response)

/-- A path item.  `entries` is the JS object's entry list in enumeration
order restricted to the keys the traversal can act on; non-method keys are
skipped by the traversal without inspecting their value, so representing their
values as (junk) operations is faithful.  The shared `parameters` list is the
JS object's `parameters` field, read separately by the source. -/
structure PathItem where
  entries : List (String × Operation)
  parameters : Option (List SchemaNode)

/-- The `components` object.  Component parameter and response values are
duck-typed schema-ish objects handed to `createKeys`, so they share the fat
`SchemaNode` type (the fields the code reads are all present on it). -/
structure Components where
  schemas : Option (List (String × SchemaNode))
  parameters : Option (List (String × SchemaNode))
  responses : Option (List (String × SchemaNode))

/-- A full document: optional `paths` and optional `components` members. -/
structure OpenAPI3 where
  paths : Option (List (String × PathItem))
  components : Option Components

/-- The generator's input union `OpenAPI3 | OpenAPI3Schemas`: a full document
or (for raw-schema mode) a bare schema map. -/
inductive GenInput where
  | doc (d : OpenAPI3)
  | rawMap (m : List (String × SchemaNode))

/-- Recognized options: `rawSchema` and the optional property-mapper hook. -/
structure SwaggerToTSOptions where
  rawSchema : Option Bool
  propertyMapper : Option (List (String × SchemaNode) → List (String × SchemaNode))

/-- Modelled from the spec: application of the property-name remapping hook
(`src/property-mapper.ts` is not under `src/`): the mapper, when supplied, is
applied once to the schema map before any transformation; absence of a mapper
means identity. -/
def propertyMapper (schemas : List (String × SchemaNode))
    (mapper : Option (List (String × SchemaNode) → List (String × SchemaNode))) :
    List (String × SchemaNode) :=
  match mapper with
  | some f => f schemas
  | none => schemas

/-- JS object assignment `m[k] = v` on a string-keyed object map: an existing
key keeps its position and gets the new value, a new key is appended. -/
def upsert {α : Type} (m : List (String × α)) (k : String) (v : α) :
    List (String × α) :=
  if k ∈ m.map Prod.fst then
    m.map (fun p => if p.1 = k then (k, v) else p)
  else m ++ [(k, v)]

/-- JS `Number` on the modelled domain of status-code keys: an all-digit
string parses to its decimal value; any other key (in particular `"default"`)
is NaN and is represented by `none`. -/
def jsNat? (s : String) : Option Nat :=
  if s.data ≠ [] ∧ s.data.all Char.isDigit then
    some (s.data.foldl (fun acc c => acc * 10 + (c.toNat - 48)) 0)
  else none

/-- The key normalization `Number(statusCodeString) || statusCodeString`
(v3.ts line 208) followed by template rendering: a digit string whose value is
nonzero renders as that numeric value (leading zeros dropped); every other key
renders verbatim (`Number("0")` is falsy, and the fallback string `"0"`
renders as the same text). -/
def statusKeyText (k : String) : String :=
  match jsNat? k with
  | some n => if n ≠ 0 then toString n else k
  | none => k

/-- The bottom-type test of v3.ts line 212: the status is `204`, or
`Math.floor(status / 100)` is `3`; `+statusCode` on a non-numeric key is NaN
and fails both comparisons. -/
def neverStatus (k : String) : Bool :=
  match jsNat? k with
  | some n => n == 204 || n / 100 == 3
  | none => false

/-- The body of a content-type-keyed map: one `"contentType": type;` line per
entry, with the transform of the entry's schema (an absent schema degrades to
the empty type expression, as `transform(undefined)` does). -/
def contentEntriesText (raw : Bool) (fuel : Nat)
    (content : List (String × MediaObj)) : String × List String :=
  content.foldl (fun acc ce =>
    let ts := transform raw fuel (ce.2.schema.getD emptyNode)
    (acc.1 ++ "\"" ++ ce.1 ++ "\": " ++ ts.1 ++ ";\n", acc.2 ++ ts.2)) ("", [])

/-- One entry of the responses block (v3.ts lines 206-221): a null response
value is skipped entirely; otherwise an optional doc comment, then either the
never/unknown short form when the content map is absent or empty, or the
content-type-keyed map of transformed body schemas. -/
def responseEntryText (raw : Bool) (fuel : Nat) (k : String)
    (r : Option Response) : String × List String :=
  match r with
  | none => ("", [])
  | some resp =>
    let c := commentIf resp.description
    if (resp.content.getD []).isEmpty then
      (c ++ statusKeyText k ++ ": " ++
        (if neverStatus k then "never" else "unknown") ++ ";\n", [])
    else
      let inner := contentEntriesText raw fuel (resp.content.getD [])
      (c ++ statusKeyText k ++ ": \x7b\n" ++ inner.1 ++ "\x7d\n", inner.2)

/-- The dynamic pointer walk of v3.ts lines 152-155: `p.$ref.substr(2)` split
on `/` and folded over the input document.  On the modelled domain the pointer
has the canonical component-parameter shape `#/components/parameters/Name`;
any other pointer does not reach a parameter object (the JS walk would yield
`undefined` there and throw on the subsequent field access) and resolves to
`none` here. -/
def resolveParamRef (input : GenInput) (r : String) : Option SchemaNode :=
  match jsSplitStr (r.drop 2) "/" with
  | ["components", "parameters", nm] =>
    match input with
    | .doc d => d.components.bind (fun c => c.parameters.bind (fun ps => ps.lookup nm))
    | .rawMap _ => none
  | _ => none

/-- Assignment into the two-level `allParameters` object of v3.ts lines
146-165: create the location group on first use, then JS-assign under the
parameter name. -/
def upsert2 (m : List (String × List (String × Sum String SchemaNode)))
    (loc nm : String) (v : Sum String SchemaNode) :
    List (String × List (String × Sum String SchemaNode)) :=
  if loc ∈ m.map Prod.fst then
    m.map (fun g => if g.1 = loc then (loc, upsert g.2 nm v) else g)
  else m ++ [(loc, [(nm, v)])]

/-- The effective (location, name) pair under which a parameter entry is
grouped: an inline parameter's own `in`/`name`, a referenced parameter's
`in`/`name` recovered by resolving the pointer against the document root
(v3.ts lines 152-164). -/
def effKey (input : GenInput) (p : SchemaNode) : String × String :=
  match p.ref with
  | some r =>
    let rv := (resolveParamRef input r).getD emptyNode
    (rv.inLoc.getD "", rv.name.getD "")
  | none => (p.inLoc.getD "", p.name.getD "")

/-- The value stored for a parameter entry: the rewritten reference text for a
referenced parameter (the emitted field body stays the reference expression),
the parameter object itself for an inline one. -/
def paramSlot (p : SchemaNode) : Sum String SchemaNode :=
  match p.ref with
  | some r => Sum.inl (transformRef r "")
  | none => Sum.inr p

/-- The grouping loop of v3.ts lines 150-165: each parameter is JS-assigned
into the two-level object under its effective location and name.  (On an
unresolvable pointer the JS code throws reading `.in` of `undefined`; the
total embedding files such a parameter under empty location and name.) -/
def groupParameters (input : GenInput) (ps : List SchemaNode) :
    List (String × List (String × Sum String SchemaNode)) :=
  ps.foldl (fun acc p =>
    upsert2 acc (effKey input p).1 (effKey input p).2 (paramSlot p)) []

/-- Lookup of the grouped-parameters object at a location and name. -/
def lookupGrouped (m : List (String × List (String × Sum String SchemaNode)))
    (loc nm : String) : Option (Sum String SchemaNode) :=
  (m.lookup loc).bind (fun g => g.lookup nm)

/-- The quoted lookup segments of a rewritten reference expression, e.g.
`parameters` and `Name` out of `components["parameters"]["Name"]`. -/
def quotedSegments (expr : String) : List String :=
  ((jsSplitStr expr "[\"").drop 1).map (fun s => (jsSplitStr s "\"]").headD "")

/-- Modelled from the spec: the component-registry lookup used to recover a
referenced parameter's `required` flag (`utils.unrefComponent` is not under
`src/`): the first two quoted segments of the path expression select the
component kind and the component name. -/
def unrefComponent (components : Components) (expr : String) : Option SchemaNode :=
  match quotedSegments expr with
  | t :: o :: _ =>
    (match t with
     | "schemas" => components.schemas
     | "parameters" => components.parameters
     | "responses" => components.responses
     | _ => none).bind (fun m => m.lookup o)
  | _ => none

/-- One field of the grouped parameters output (v3.ts lines 169-178): a
reference slot renders the reference text with an optionality marker taken
from the referenced component's `required`; an inline slot renders its
transformed schema with marker from its own strict-`true` `required`. -/
def paramFieldText (components : Components) (raw : Bool) (fuel : Nat)
    (nm : String) (slot : Sum String SchemaNode) : String × List String :=
  match slot with
  | .inl refText =>
    let req := ((unrefComponent components refText).bind SchemaNode.requiredFlag).getD false
    ((if req then "\"" ++ nm ++ "\"" else "\"" ++ nm ++ "\"?") ++ ": " ++ refText ++ "\n", [])
  | .inr p =>
    let ts := transform raw fuel (p.schemaField.getD emptyNode)
    (commentIf p.description ++ "\"" ++ nm ++ "\"" ++
      (if p.requiredFlag.getD false then "" else "?") ++ ": " ++ ts.1 ++ ";\n", ts.2)

/-- Embeds `transformParameters` (v3.ts lines 145-184): group by location and
name, then render one record per location. -/
def transformParameters (input : GenInput) (components : Components) (raw : Bool)
    (fuel : Nat) (parameters : List SchemaNode) : String × List String :=
  let grouped := groupParameters input parameters
  let body := grouped.foldl (fun acc g =>
    let inner := g.2.foldl (fun acc2 e =>
      let f := paramFieldText components raw fuel e.1 e.2
      (acc2.1 ++ f.1, acc2.2 ++ f.2)) ("", [])
    (acc.1 ++ "\"" ++ g.1 ++ "\": \x7b\n" ++ inner.1 ++ "\x7d\n", acc.2 ++ inner.2))
    ("", [])
  ("parameters: \x7b\n" ++ body.1 ++ "\x7d\n", body.2)

/-- One step of the responses-block fold: append the entry's rendering. -/
def respStep (raw : Bool) (fuel : Nat) (acc : String × List String)
    (e : String × Option Response) : String × List String :=
  let f := responseEntryText raw fuel e.1 e.2
  (acc.1 ++ f.1, acc.2 ++ f.2)

/-- The body of the responses block: the concatenation of the entry renderings
in enumeration order (v3.ts lines 206-221). -/
def responsesText (raw : Bool) (fuel : Nat)
    (rs : List (String × Option Response)) : String × List String :=
  rs.foldl (respStep raw fuel) ("", [])

/-- Embeds `transformOperation` (v3.ts lines 186-226): parameters block when a
parameter list is present, request-body block when a body is present, then the
always-present responses block. -/
def transformOperation (input : GenInput) (components : Components) (raw : Bool)
    (fuel : Nat) (op : Operation) : String × List String :=
  let pPart := match op.parameters with
    | some ps => transformParameters input components raw fuel ps
    | none => ("", [])
  let bPart := match op.requestBody with
    | some rb =>
      let inner := contentEntriesText raw fuel (rb.content.getD [])
      ("requestBody: \x7b\n" ++ inner.1 ++ "\x7d\n", inner.2)
    | none => ("", [])
  let rPart := responsesText raw fuel op.responses
  ("\x7b\n" ++ pPart.1 ++ bPart.1 ++ "responses: \x7b\n" ++ rPart.1 ++ "\x7d\n\x7d\n",
    pPart.2 ++ bPart.2 ++ rPart.2)

/-- The fixed HTTP method set of v3.ts line 235. -/
def isMethod (field : String) : Bool :=
  ["get", "put", "post", "delete", "options", "head", "patch", "trace"].contains field

/-- JS truthiness of an optional string field. -/
def truthyStr (o : Option String) : Bool :=
  match o with
  | some s => !(s == "")
  | none => false

/-- One entry of a path item (v3.ts lines 233-248): a non-method key is
skipped; a method whose operation has a truthy identifier emits a by-name
reference into the operations table slot and JS-assigns the table at that
identifier; a method without one is expanded inline with its description as a
preceding doc comment. -/
def methodEntryStep (input : GenInput) (components : Components) (raw : Bool)
    (fuel : Nat) (acc : String × List String × List (String × Operation))
    (fe : String × Operation) :
    String × List String × List (String × Operation) :=
  if isMethod fe.1 then
    if truthyStr fe.2.operationId then
      (acc.1 ++ "\"" ++ fe.1 ++ "\": operations[\"" ++
          fe.2.operationId.getD "" ++ "\"];\n",
        acc.2.1, upsert acc.2.2 (fe.2.operationId.getD "") fe.2)
    else
      let t := transformOperation input components raw fuel fe.2
      (acc.1 ++ commentIf fe.2.description ++ "\"" ++ fe.1 ++ "\": " ++ t.1,
        acc.2.1 ++ t.2, acc.2.2)
  else acc

/-- One path of `transformPaths`: the path opener, the method entries in
enumeration order, the shared parameters block (always after the method
bodies), and the closing brace. -/
def pathStep (input : GenInput) (components : Components) (raw : Bool)
    (fuel : Nat) (acc : String × List String × List (String × Operation))
    (pe : String × PathItem) :
    String × List String × List (String × Operation) :=
  let afterMethods := pe.2.entries.foldl (methodEntryStep input components raw fuel)
    (acc.1 ++ "\"" ++ pe.1 ++ "\": \x7b\n", acc.2.1, acc.2.2)
  let afterParams := match pe.2.parameters with
    | some ps =>
      let t := transformParameters input components raw fuel ps
      (afterMethods.1 ++ t.1, afterMethods.2.1 ++ t.2, afterMethods.2.2)
    | none => afterMethods
  (afterParams.1 ++ "\x7d\n", afterParams.2.1, afterParams.2.2)

/-- Embeds `transformPaths` (v3.ts lines 228-257) with the operations table
threaded explicitly; result is (emitted text, discovered external keys, final
operations table). -/
def transformPaths (input : GenInput) (components : Components) (raw : Bool)
    (fuel : Nat) (paths : List (String × PathItem))
    (ops : List (String × Operation)) :
    String × List String × List (String × Operation) :=
  paths.foldl (pathStep input components raw fuel) ("", [], ops)

/-- The operations carrying a given (truthy) identifier, in path-traversal
order: per path, the method entries whose operation declares that identifier. -/
def hoistedOps (id : String) (paths : List (String × PathItem)) : List Operation :=
  paths.flatMap (fun pe =>
    (pe.2.entries.filter (fun fe =>
      isMethod fe.1 && truthyStr fe.2.operationId &&
        (fe.2.operationId.getD "" == id))).map Prod.snd)

/-- The operations-table effect of one path-item entry, read off
`methodEntryStep`: JS assignment at the operation's identifier for hoisted
operations, no change otherwise. -/
def tableUpd (t : List (String × Operation)) (fe : String × Operation) :
    List (String × Operation) :=
  if isMethod fe.1 && truthyStr fe.2.operationId then
    upsert t (fe.2.operationId.getD "") fe.2
  else t

/-- Embeds `createExternalFileMapping` (v3.ts lines 277-293): empty text
without external keys, otherwise one positionally-aliased import per key and a
single `external` mapping type, keys in first-discovery order. -/
def createExternalFileMapping (keys : List String) : String :=
  if keys.isEmpty then ""
  else
    let imports := keys.enum.map (fun p =>
      "import \x7b schemas as external$" ++ toString p.1 ++ " \x7d from \"./" ++ p.2 ++ "\"")
    let importMappings := ["export type external = \x7b"] ++
      keys.enum.map (fun p => "\"" ++ p.2 ++ "\": external$" ++ toString p.1) ++ ["\x7d"]
    String.intercalate "\n" imports ++ "\n\n" ++
      String.intercalate "\n" importMappings ++ "\n\n"

/-- The message of the sole explicit error, `InvalidDocumentShape`
(v3.ts line 44). -/
def invalidShapeMsg : String :=
  "No components or paths found. Specify --raw-schema to load a raw schema."

/-- The `rawSchema = false` option destructuring of v3.ts line 37. -/
def rawOption (options : Option SwaggerToTSOptions) : Bool :=
  match options with
  | some o => o.rawSchema.getD false
  | none => false

def inputPaths : GenInput → Option (List (String × PathItem))
  | .doc d => d.paths
  | .rawMap _ => none

def inputComponents : GenInput → Option Components
  | .doc d => d.components
  | .rawMap _ => none

/-- The input viewed as a raw schema map (`components = { schemas: input }` in
raw mode); passing a full document in raw mode is outside the modelled
domain and yields the empty map. -/
def inputRawMap : GenInput → List (String × SchemaNode)
  | .doc _ => []
  | .rawMap m => m

/-- The successful output of the generator (v3.ts lines 48-349), i.e.
everything after the input-shape guard: the raw-schema early return, or the
assembled paths/operations/components text with the prepended external-import
text.  The external-file-key set is the first-occurrence deduplication of the
keys discovered by the emission calls in their JS execution order: paths walk,
operations block, then the component blocks. -/
def generateOutput (fuel : Nat) (input : GenInput)
    (options : Option SwaggerToTSOptions) : String :=
  let raw := rawOption options
  let paths := (inputPaths input).getD []
  (
    let components : Components := if raw then
        ⟨some (inputRawMap input), none, none⟩
      else (inputComponents input).getD ⟨some [], none, none⟩
    let propertyMapped := match options with
      | some o => propertyMapper (components.schemas.getD []) o.propertyMapper
      | none => components.schemas.getD []
    if raw then
      "export interface schemas \x7b\n  " ++
        (createKeys (fun n => transform raw fuel n) propertyMapped
          (some (propertyMapped.map Prod.fst))).1 ++ "\n\x7d"
    else
      let pathsPart := if !paths.isEmpty then
          transformPaths input components raw fuel paths []
        else ("", [], [])
      let opsPart := pathsPart.2.2.foldl (fun acc oe =>
        let t := transformOperation input components raw fuel oe.2
        (acc.1 ++ commentIf oe.2.description ++ "\"" ++ oe.1 ++ "\": " ++ t.1,
          acc.2 ++ t.2)) ("", [])
      let cParams := components.parameters.getD []
      let paramsPart := if !cParams.isEmpty then
          let ck := createKeys (fun n => transform raw fuel n) cParams
            (some (cParams.map Prod.fst))
          ("\nparameters: \x7b\n  " ++ ck.1 ++ "\n\x7d\n", ck.2)
        else ("", [])
      let schemasPart := if !propertyMapped.isEmpty then
          let ck := createKeys (fun n => transform raw fuel n) propertyMapped
            (some (propertyMapped.map Prod.fst))
          ("schemas: \x7b\n  " ++ ck.1 ++ "\n\x7d", ck.2)
        else ("", [])
      let cResponses := components.responses.getD []
      let responsesPart := if !cResponses.isEmpty then
          let ck := createKeys (fun n => transform raw fuel n) cResponses
            (some (cResponses.map Prod.fst))
          ("\nresponses: \x7b\n  " ++ ck.1 ++ "\n\x7d", ck.2)
        else ("", [])
      let extKeys := dedupFirst (pathsPart.2.1 ++ opsPart.2 ++ paramsPart.2 ++
        schemasPart.2 ++ responsesPart.2)
      let pathsText := if !paths.isEmpty then
          "export interface paths \x7b\n  " ++ pathsPart.1 ++ "\n\x7d\n\n"
        else ""
      createExternalFileMapping extKeys ++ pathsText ++
        "export interface operations \x7b\n" ++ opsPart.1 ++ "\n\x7d\n\n" ++
        "export interface components \x7b\n" ++ paramsPart.1 ++ schemasPart.1 ++
        responsesPart.1 ++ "\n\x7d")

/-- Embeds `generateTypesV3` (v3.ts lines 36-349).  The thrown
`InvalidDocumentShape` error becomes the `Except.error` branch, produced
before any output text is assembled (every path past the guard returns
successfully, so the guard and the output are composed here). -/
def generateTypesV3 (fuel : Nat) (input : GenInput)
    (options : Option SwaggerToTSOptions) : Except String String :=
  if !rawOption options ∧ (inputComponents input).isNone ∧ (inputPaths input).isNone then
    .error invalidShapeMsg
  else
    .ok (generateOutput fuel input options)

/-- A plain string-typed schema node, for concrete instances. -/
def strNode : SchemaNode :=
  .mk none (some "string") none none none none none none none none false
    none none none none none

/-- A plain integer-typed schema node, for concrete instances. -/
def intNode : SchemaNode :=
  .mk none (some "integer") none none none none none none none none false
    none none none none none

/-- A response with no description and no content, for concrete instances. -/
def emptyResponse : Response := ⟨none, none⟩

/-- First of two operations sharing the identifier `op1`. -/
def opFirst : Operation :=
  ⟨some "op1", some "first", none, none, [("200", some emptyResponse)]⟩

/-- Second of two operations sharing the identifier `op1`. -/
def opSecond : Operation :=
  ⟨some "op1", some "second", none, none, [("204", some emptyResponse)]⟩

/-- Two path entries whose operations share one `operationId`. -/
def twoPathsShared : List (String × PathItem) :=
  [("/a", ⟨[("get", opFirst)], none⟩), ("/b", ⟨[("get", opSecond)], none⟩)]

/-- An inline query parameter named `limit` with an integer schema. -/
def qpInt : SchemaNode :=
  .mk none none none none none none none none none none false none
    (some intNode) (some "limit") (some "query") none

/-- An inline query parameter named `limit` with a string schema. -/
def qpStr : SchemaNode :=
  .mk none none none none none none none none none none false none
    (some strNode) (some "limit") (some "query") none

/-!
Theorems.  Helper lemmas come first; each claim then gets exactly one main
theorem (with witness and counterexample theorems where called for).
-/

theorem str_append_empty (s : String) : s ++ "" = s := by
  apply String.ext
  simp [String.data_append]

theorem respStep_none (raw : Bool) (fuel : Nat) (acc : String × List String)
    (k : String) : respStep raw fuel acc (k, none) = acc := by
  cases acc with
  | mk a b => simp [respStep, responseEntryText, str_append_empty]

theorem foldl_respStep_filter (raw : Bool) (fuel : Nat)
    (rs : List (String × Option Response)) (acc : String × List String) :
    rs.foldl (respStep raw fuel) acc =
      (rs.filter (fun e => e.2.isSome)).foldl (respStep raw fuel) acc := by
  induction rs generalizing acc with
  | nil => rfl
  | cons e rest ih =>
    cases e with
    | mk k r =>
      cases r with
      | none => simpa [respStep_none] using ih acc
      | some resp => simp [List.foldl_cons, List.filter_cons, ih]

/-- C10: a responses-map entry bound to a null/absent response value is
silently skipped — the responses block renders exactly as if the entry were
not there (no key for it is emitted, no error is raised, and every other entry
is still emitted), and the rendering of a null entry is empty. -/
theorem null_response_skipped (raw : Bool) (fuel : Nat)
    (rs : List (String × Option Response)) :
    responsesText raw fuel rs =
      responsesText raw fuel (rs.filter (fun e => e.2.isSome)) ∧
    (∀ k, responseEntryText raw fuel k none = ("", [])) := by
  refine ⟨?_, fun k => rfl⟩
  simp [responsesText, foldl_respStep_filter]

/-- C2: in non-raw mode, the generator fails with the `InvalidDocumentShape`
error exactly when the input has neither a `paths` nor a `components` member,
and the failure produces no output (the error branch carries none); any input
with at least one of the two members yields a successful output and no such
error. -/
theorem invalid_shape_error_iff (fuel : Nat) (input : GenInput)
    (options : Option SwaggerToTSOptions) (hraw : rawOption options = false) :
    (generateTypesV3 fuel input options = Except.error invalidShapeMsg ↔
      ((inputComponents input).isNone ∧ (inputPaths input).isNone)) ∧
    (((inputComponents input).isSome ∨ (inputPaths input).isSome) →
      ∃ out, generateTypesV3 fuel input options = Except.ok out) := by
  by_cases h : ((inputComponents input).isNone ∧ (inputPaths input).isNone)
  · constructor
    · simp [generateTypesV3, hraw, h]
    · intro hsome
      rcases h with ⟨h1, h2⟩
      rcases hsome with hs | hs
      · rw [Option.isNone_iff_eq_none] at h1
        rw [h1] at hs
        simp at hs
      · rw [Option.isNone_iff_eq_none] at h2
        rw [h2] at hs
        simp at hs
  · have hcond : ¬((!rawOption options) = true ∧ (inputComponents input).isNone = true ∧
        (inputPaths input).isNone = true) := by
      rw [hraw]
      intro hc
      exact h hc.2
    constructor
    · unfold generateTypesV3
      rw [if_neg hcond]
      simp [h]
      intro h1 h2
      exact h ⟨by simp [h1], by simp [h2]⟩
    · intro _
      exact ⟨_, by unfold generateTypesV3; rw [if_neg hcond]⟩

/-- C2 witness: the empty document (no `paths`, no `components`) fails with
the `InvalidDocumentShape` message, and a document with an empty `paths`
member succeeds. -/
theorem invalid_shape_error_iff_witness :
    (generateTypesV3 0 (GenInput.doc ⟨none, none⟩) none =
      Except.error invalidShapeMsg) ∧
    (∃ out, generateTypesV3 0 (GenInput.doc ⟨some [], none⟩) none =
      Except.ok out) :=
  ⟨(invalid_shape_error_iff 0 (GenInput.doc ⟨none, none⟩) none rfl).1.mpr
      (by constructor <;> rfl),
    (invalid_shape_error_iff 0 (GenInput.doc ⟨some [], none⟩) none rfl).2
      (Or.inr (by rfl))⟩

/-- C6: for an array-tagged node, a list-valued `items` yields the tuple type
of the transformed items, exactly one slot per item and in the same order; a
single-schema `items` yields the homogeneous sequence type of its transform;
an absent `items` yields the sequence type of `any`. -/
theorem array_items_tuple (raw : Bool) (fuel : Nat) (node : SchemaNode)
    (ht : nodeType node = some NodeTag.arr) :
    (∀ l, node.items = some (Sum.inr l) →
      (transform raw (fuel + 1) node).1 =
        tsTupleOf (l.map (fun n => (transform raw fuel n).1)) ∧
      (l.map (fun n => (transform raw fuel n).1)).length = l.length) ∧
    (∀ s, node.items = some (Sum.inl s) →
      (transform raw (fuel + 1) node).1 = tsArrayOf (transform raw fuel s).1) ∧
    (node.items = none →
      (transform raw (fuel + 1) node).1 = tsArrayOf "any") := by
  refine ⟨fun l hi => ⟨?_, by simp⟩, fun s hi => ?_, fun hi => ?_⟩ <;>
    simp [transform, ht, hi, Function.comp_def]

/-- C6 witness: a two-element items list produces the two-slot tuple type. -/
theorem array_items_tuple_witness :
    (transform false 2 (SchemaNode.mk none (some "array") none none none none
      none none none (some (Sum.inr [strNode, intNode])) false none none none
      none none)).1 = tsTupleOf ["string", "number"] :=
  ((array_items_tuple false 1 (SchemaNode.mk none (some "array") none none none
      none none none none (some (Sum.inr [strNode, intNode])) false none none
      none none none) (by decide)).1 [strNode, intNode] rfl).1.trans
    (by decide)

/-- C3: a response entry with no content is rendered as its (optional) doc
comment, its status key, and a short type: `never` exactly when the numeric
value of the key is `204` or lies in the 3xx range, `unknown` otherwise; a
numeric-looking (digit-string) key is emitted as the numeric literal of its
value, and a non-numeric key — in particular `"default"` — is emitted
unchanged and typed `unknown`. -/
theorem contentless_response_typing (raw : Bool) (fuel : Nat) (k : String)
    (resp : Response) (hc : (resp.content.getD []).isEmpty = true) :
    (∀ n : Nat, jsNat? k = some n →
      (responseEntryText raw fuel k (some resp)).1 =
        commentIf resp.description ++ (if n = 0 then k else toString n) ++ ": " ++
          (if n = 204 ∨ n / 100 = 3 then "never" else "unknown") ++ ";\n") ∧
    (jsNat? k = none →
      (responseEntryText raw fuel k (some resp)).1 =
        commentIf resp.description ++ k ++ ": unknown;\n") := by
  constructor
  · intro n hn
    by_cases h3 : (n = 204 ∨ n / 100 = 3)
    · simp [responseEntryText, hc, statusKeyText, neverStatus, hn, h3, ite_not,
        String.append_assoc]
    · simp [responseEntryText, hc, statusKeyText, neverStatus, hn, h3, ite_not,
        String.append_assoc]
  · intro hn
    simp [responseEntryText, hc, statusKeyText, neverStatus, hn,
      String.append_assoc]

/-- C3 witness: status `204` with no content is typed `never`; status `200`
with no content is typed `unknown`; the key `default` is kept and typed
`unknown`. -/
theorem contentless_response_typing_witness :
    (responseEntryText false 0 "204" (some emptyResponse)).1 = "204: never;\n" ∧
    (responseEntryText false 0 "200" (some emptyResponse)).1 = "200: unknown;\n" ∧
    (responseEntryText false 0 "default" (some emptyResponse)).1 =
      "default: unknown;\n" :=
  ⟨(((contentless_response_typing false 0 "204" emptyResponse rfl).1 204
      (by decide)).trans (by decide)),
   (((contentless_response_typing false 0 "200" emptyResponse rfl).1 200
      (by decide)).trans (by decide)),
   (((contentless_response_typing false 0 "default" emptyResponse rfl).2
      (by decide)).trans (by decide))⟩

theorem addKey_idem (l : List String) (k : String) :
    addKey (addKey l k) k = addKey l k := by
  unfold addKey
  by_cases h : k ∈ l
  · simp [h]
  · simp [h]

/-- C4: reference resolution is a pure function of the reference string and
the root: the emitted path expression does not depend on the accumulated
external-key set, resolving the same reference a second time yields the
identical expression and leaves the key set unchanged, and an external
reference's stripped document key is registered exactly once when it was not
already present. -/
theorem resolveRef_idempotent (ext ext2 : List String) (ref root : String) :
    ((transformRefType ext ref root).1 = (transformRefType ext2 ref root).1) ∧
    ((transformRefType (transformRefType ext ref root).2 ref root).1 =
      (transformRefType ext ref root).1) ∧
    ((transformRefType (transformRefType ext ref root).2 ref root).2 =
      (transformRefType ext ref root).2) ∧
    (ref.take 1 ≠ "#" →
      stripJson ((jsSplitStr ref "#/").headD "") ∉ ext →
      ((transformRefType ext ref root).2.count
        (stripJson ((jsSplitStr ref "#/").headD ""))) = 1) := by
  by_cases hx : ref.take 1 ≠ "#"
  · have hkey : ∀ e : List String, (transformRefType e ref root).2 =
        addKey e (stripJson ((jsSplitStr ref "#/").headD "")) := by
      intro e
      simp only [transformRefType, if_pos hx]
      rcases (jsSplitStr ref "#/")[1]? with _ | ip
      · rfl
      · by_cases hip : ip ≠ ""
        · simp [hip]
        · simp [hip]
    have hval : ∀ e e' : List String,
        (transformRefType e ref root).1 = (transformRefType e' ref root).1 := by
      intro e e'
      simp only [transformRefType, if_pos hx]
      rcases (jsSplitStr ref "#/")[1]? with _ | ip
      · rfl
      · by_cases hip : ip ≠ ""
        · simp [hip]
        · simp [hip]
    refine ⟨hval ext ext2, hval _ ext, ?_, ?_⟩
    · rw [hkey, hkey]
      exact addKey_idem ext _
    · intro _ hmem
      rw [hkey]
      unfold addKey
      rw [if_neg hmem, List.count_append, List.count_eq_zero.mpr hmem]
      simp
  · have h : ref.take 1 = "#" := not_not.mp hx
    have : ∀ e : List String, transformRefType e ref root = (transformRef ref root, e) := by
      intro e
      simp [transformRefType, hx]
    refine ⟨?_, ?_, ?_, fun hc => absurd h hc⟩ <;> rw [this, this]

/-- C4 witness: the reference `other.json#/Widget` resolves to the
external-namespaced lookup, registers `other` exactly once starting from the
empty set, and a second resolution changes nothing. -/
theorem resolveRef_idempotent_witness :
    ((transformRefType [] "other.json#/Widget" "").2.count "other" = 1) ∧
    ((transformRefType (transformRefType [] "other.json#/Widget" "").2
      "other.json#/Widget" "").2 = (transformRefType [] "other.json#/Widget" "").2) ∧
    (transformRefType [] "other.json#/Widget" "").1 =
      "external[\"other\"][\"Widget\"]" :=
  ⟨by
    have h := (resolveRef_idempotent [] [] "other.json#/Widget" "").2.2.2
      (by decide) (by decide)
    have heq : stripJson ((jsSplitStr "other.json#/Widget" "#/").headD "") =
        "other" := by decide
    rw [heq] at h
    exact h,
   (resolveRef_idempotent [] [] "other.json#/Widget" "").2.2.1,
   by decide⟩

theorem createKeys_fst_eq_strConcat (tf : SchemaNode → String × List String)
    (obj : List (String × SchemaNode)) (required : Option (List String)) :
    (createKeys tf obj required).1 =
      strConcat (obj.map (fun kv =>
        keyEntryText required kv.1 kv.2 (tf (kv.2.schemaField.getD kv.2)).1)) := by
  induction obj with
  | nil => rfl
  | cons kv rest ih =>
    cases kv with
    | mk key value =>
      cases h : value.schemaField <;>
        simp [createKeys, ih, strConcat, h, Option.getD]

/-- C8: in raw-schema mode the generator emits exactly one `schemas`
declaration block — one field per key of the (possibly property-mapped) input
map, in order — and nothing else (no paths, operations or components blocks:
the output equals the single-block template); and every key of the mapped map
passes the required test, so no field carries the optionality marker. -/
theorem raw_schema_single_block (fuel : Nat) (m : List (String × SchemaNode))
    (o : SwaggerToTSOptions) (hraw : o.rawSchema = some true) :
    generateTypesV3 fuel (GenInput.rawMap m) (some o) =
      Except.ok ("export interface schemas \x7b\n  " ++
        strConcat ((propertyMapper m o.propertyMapper).map (fun kv =>
          keyEntryText (some ((propertyMapper m o.propertyMapper).map Prod.fst))
            kv.1 kv.2
            (transform true fuel (kv.2.schemaField.getD kv.2)).1)) ++ "\n\x7d") ∧
    (∀ kv ∈ propertyMapper m o.propertyMapper,
      requiredHas (some ((propertyMapper m o.propertyMapper).map Prod.fst))
        kv.1 = true) := by
  have hro : rawOption (some o) = true := by simp [rawOption, hraw]
  constructor
  · unfold generateTypesV3
    rw [if_neg (by simp [hro])]
    have : generateOutput fuel (GenInput.rawMap m) (some o) =
        "export interface schemas \x7b\n  " ++
          strConcat ((propertyMapper m o.propertyMapper).map (fun kv =>
            keyEntryText (some ((propertyMapper m o.propertyMapper).map Prod.fst))
              kv.1 kv.2
              (transform true fuel (kv.2.schemaField.getD kv.2)).1)) ++ "\n\x7d" := by
      simp only [generateOutput, hro, if_pos, inputRawMap]
      simp [createKeys_fst_eq_strConcat]
    rw [this]
  · intro kv hkv
    simp only [requiredHas, decide_eq_true_eq]
    exact List.mem_map_of_mem Prod.fst hkv

/-- C8 witness: a one-key raw schema map produces exactly the single
`schemas` block with the key required. -/
theorem raw_schema_single_block_witness :
    generateTypesV3 1 (GenInput.rawMap [("A", strNode)])
      (some ⟨some true, none⟩) =
      Except.ok "export interface schemas \x7b\n  \"A\": string;\n\n\x7d" :=
  ((raw_schema_single_block 1 [("A", strNode)] ⟨some true, none⟩ rfl).1).trans
    (congrArg Except.ok (by decide))

theorem litBody_bs_cons (c : Char) (l : List Char) :
    litBody (bsC :: c :: l) = litBody l := rfl

theorem litBody_plain_cons (c : Char) (l : List Char) (h1 : c ≠ sqC)
    (h2 : c ≠ bsC) (h3 : c ≠ Char.ofNat 10) (h4 : c ≠ Char.ofNat 13) :
    litBody (c :: l) = litBody l := by
  rw [litBody.eq_def]
  dsimp only
  rw [if_neg h1, if_neg h2, if_neg (by rintro (hx | hx); exact h3 hx; exact h4 hx)]

theorem litBody_escape (cs : List Char) (hb : bsC ∉ cs)
    (h10 : Char.ofNat 10 ∉ cs) (h13 : Char.ofNat 13 ∉ cs) :
    litBody (escapeQuotes cs ++ [sqC]) = true := by
  induction cs with
  | nil => rfl
  | cons c rest ih =>
    have hb' : bsC ∉ rest := fun hx => hb (List.mem_cons_of_mem _ hx)
    have h10' : Char.ofNat 10 ∉ rest := fun hx => h10 (List.mem_cons_of_mem _ hx)
    have h13' : Char.ofNat 13 ∉ rest := fun hx => h13 (List.mem_cons_of_mem _ hx)
    have hcb : c ≠ bsC := fun hx => hb (hx ▸ List.mem_cons_self c rest)
    have hc10 : c ≠ Char.ofNat 10 := fun hx => h10 (hx ▸ List.mem_cons_self c rest)
    have hc13 : c ≠ Char.ofNat 13 := fun hx => h13 (hx ▸ List.mem_cons_self c rest)
    by_cases hc : c = sqC
    · subst hc
      rw [show escapeQuotes (sqC :: rest) = bsC :: sqC :: escapeQuotes rest from
        by simp [escapeQuotes]]
      rw [List.cons_append, List.cons_append, litBody_bs_cons]
      exact ih hb' h10' h13'
    · rw [show escapeQuotes (c :: rest) = c :: escapeQuotes rest from
        by simp [escapeQuotes, hc]]
      rw [List.cons_append, litBody_plain_cons c _ hc hcb hc10 hc13]
      exact ih hb' h10' h13'

/-- C5 (amended): an enum node is emitted as the union of its rendered
literal members; every string member containing no backslash and no line
terminator (whether or not it contains a quote) is rendered as one
syntactically valid single-quoted string literal, each internal quote
escaped; numeric and boolean members are rendered verbatim, unquoted. -/
theorem enum_literal_escaping (raw : Bool) (fuel : Nat) (node : SchemaNode)
    (vals : List EnumVal) (he : node.enum = some vals) :
    (transform raw (fuel + 1) node).1 = tsUnionOf (vals.map enumLit) ∧
    (∀ s : String, bsC ∉ s.data → Char.ofNat 10 ∉ s.data →
      Char.ofNat 13 ∉ s.data → isSingleQuotedLit (enumLit (.str s)) = true) ∧
    (∀ n : Int, enumLit (.int n) = toString n) ∧
    (∀ b : Bool, enumLit (.bool b) = (if b then "true" else "false")) := by
  refine ⟨?_, ?_, fun n => rfl, fun b => rfl⟩
  · have htag : nodeType node = some NodeTag.enum := by
      simp [nodeType, he]
    simp [transform, htag, he]
  · intro s hb h10 h13
    have hdata : (sqS ++ (String.mk (escapeQuotes s.data) ++ sqS)).data =
        sqC :: (escapeQuotes s.data ++ [sqC]) := by
      simp [sqS, String.singleton]
    simp only [enumLit, isSingleQuotedLit, String.append_assoc, hdata]
    simp [litBody_escape s.data hb h10 h13]

/-- C5 witness: the member text `a`-quote-`b` (which contains a quote and no
backslash) is emitted as a single valid quoted literal. -/
theorem enum_literal_escaping_witness :
    isSingleQuotedLit (enumLit (EnumVal.str (String.mk ['a', sqC, 'b']))) = true :=
  (enum_literal_escaping false 0
    (SchemaNode.mk none none (some [EnumVal.str (String.mk ['a', sqC, 'b'])])
      none none none none none none none false none none none none none)
    [EnumVal.str (String.mk ['a', sqC, 'b'])] rfl).2.1
    (String.mk ['a', sqC, 'b']) (by decide) (by decide) (by decide)

/-- C5 counterexample: the enum member consisting of a backslash followed by a
quote does contain a quote character, yet the transformer's emitted literal
for it is not one syntactically valid quoted string literal (the escape
produces a literal backslash that swallows the escaped quote, leaving a stray
closing quote), refuting the claim as stated. -/
theorem enum_literal_escaping_counterexample :
    sqC ∈ (bsS ++ sqS).data ∧
    (transform false 1 (SchemaNode.mk none none
      (some [EnumVal.str (bsS ++ sqS)]) none none none none none none none
      false none none none none none)).1 = enumLit (EnumVal.str (bsS ++ sqS)) ∧
    isSingleQuotedLit (enumLit (EnumVal.str (bsS ++ sqS))) = false :=
  ⟨by decide, by decide, by decide⟩

theorem lookup_cons_ne {β : Type} (k a : String) (b : β) (l : List (String × β))
    (h : k ≠ a) : List.lookup k ((a, b) :: l) = List.lookup k l := by
  rw [List.lookup_cons, show (k == a) = false from by simpa using h]

theorem lookup_not_mem {β : Type} (k : String) (m : List (String × β))
    (h : k ∉ m.map Prod.fst) : m.lookup k = none := by
  induction m with
  | nil => rfl
  | cons p rest ih =>
    cases p with
    | mk a b =>
      have h1 : k ≠ a := fun hx => h (by simp [hx])
      have h2 : k ∉ rest.map Prod.fst := fun hx => h (by simp [hx])
      rw [lookup_cons_ne _ _ _ _ h1]
      exact ih h2

theorem lookup_isSome_of_mem {β : Type} (k : String) (m : List (String × β))
    (h : k ∈ m.map Prod.fst) : (m.lookup k).isSome = true := by
  induction m with
  | nil => simp at h
  | cons p rest ih =>
    cases p with
    | mk a b =>
      by_cases hk : k = a
      · subst hk
        rw [List.lookup_cons_self]
        rfl
      · rw [lookup_cons_ne _ _ _ _ hk]
        simp only [List.map_cons, List.mem_cons] at h
        rcases h with h | h
        · exact absurd h hk
        · exact ih h

theorem lookup_map_update {β : Type} (m : List (String × β)) (k : String)
    (f : β → β) :
    (m.map (fun p => if p.1 = k then (k, f p.2) else p)).lookup k =
      (m.lookup k).map f := by
  induction m with
  | nil => rfl
  | cons p rest ih =>
    cases p with
    | mk a b =>
      rw [List.map_cons]
      dsimp only
      by_cases hk : a = k
      · subst hk
        rw [if_pos rfl, List.lookup_cons_self, List.lookup_cons_self]
        rfl
      · rw [if_neg hk, lookup_cons_ne _ _ _ _ (fun hx => hk hx.symm),
          lookup_cons_ne _ _ _ _ (fun hx => hk hx.symm)]
        exact ih

theorem lookup_map_update_ne {β : Type} (m : List (String × β)) (k k' : String)
    (f : β → β) (h : k' ≠ k) :
    (m.map (fun p => if p.1 = k then (k, f p.2) else p)).lookup k' =
      m.lookup k' := by
  induction m with
  | nil => rfl
  | cons p rest ih =>
    cases p with
    | mk a b =>
      rw [List.map_cons]
      dsimp only
      by_cases hk : a = k
      · subst hk
        rw [if_pos rfl, lookup_cons_ne _ _ _ _ h, lookup_cons_ne _ _ _ _ h]
        exact ih
      · rw [if_neg hk]
        by_cases hk' : k' = a
        · subst hk'
          rw [List.lookup_cons_self, List.lookup_cons_self]
        · rw [lookup_cons_ne _ _ _ _ hk', lookup_cons_ne _ _ _ _ hk']
          exact ih

theorem lookup_append_left_none {β : Type} (k : String)
    (m l : List (String × β)) (h : m.lookup k = none) :
    (m ++ l).lookup k = l.lookup k := by
  induction m with
  | nil => rfl
  | cons p rest ih =>
    cases p with
    | mk a b =>
      by_cases hk : k = a
      · subst hk
        rw [List.lookup_cons_self] at h
        exact absurd h (by simp)
      · rw [lookup_cons_ne _ _ _ _ hk] at h
        rw [List.cons_append, lookup_cons_ne _ _ _ _ hk]
        exact ih h

theorem lookup_upsert_self {β : Type} (m : List (String × β)) (k : String)
    (v : β) : (upsert m k v).lookup k = some v := by
  unfold upsert
  by_cases hm : k ∈ m.map Prod.fst
  · rw [if_pos hm, lookup_map_update m k (fun _ => v)]
    rcases hs : m.lookup k with _ | w
    · exact absurd (hs ▸ lookup_isSome_of_mem k m hm) (by simp)
    · rfl
  · rw [if_neg hm, lookup_append_left_none k m _ (lookup_not_mem k m hm),
      List.lookup_cons_self]

theorem lookup_upsert_ne {β : Type} (m : List (String × β)) (k k' : String)
    (v : β) (h : k' ≠ k) : (upsert m k v).lookup k' = m.lookup k' := by
  unfold upsert
  by_cases hm : k ∈ m.map Prod.fst
  · rw [if_pos hm, lookup_map_update_ne m k k' (fun _ => v) h]
  · rw [if_neg hm]
    induction m with
    | nil => rw [List.nil_append, lookup_cons_ne _ _ _ _ h]
    | cons p rest ih =>
      cases p with
      | mk a b =>
        by_cases hk' : k' = a
        · subst hk'
          rw [List.cons_append, List.lookup_cons_self, List.lookup_cons_self]
        · rw [List.cons_append, lookup_cons_ne _ _ _ _ hk',
            lookup_cons_ne _ _ _ _ hk']
          exact ih (fun hx => hm (List.mem_cons_of_mem _ hx))

theorem map_fst_map_update {β : Type} (m : List (String × β)) (k : String)
    (f : β → β) :
    (m.map (fun p => if p.1 = k then (k, f p.2) else p)).map Prod.fst =
      m.map Prod.fst := by
  induction m with
  | nil => rfl
  | cons p rest ih =>
    cases p with
    | mk a b =>
      rw [List.map_cons, List.map_cons]
      dsimp only
      by_cases hk : a = k
      · subst hk
        rw [if_pos rfl, List.map_cons, ih]
      · rw [if_neg hk, List.map_cons, ih]

theorem map_fst_upsert {β : Type} (m : List (String × β)) (k : String) (v : β) :
    (upsert m k v).map Prod.fst =
      if k ∈ m.map Prod.fst then m.map Prod.fst else m.map Prod.fst ++ [k] := by
  unfold upsert
  by_cases hm : k ∈ m.map Prod.fst
  · rw [if_pos hm, if_pos hm, map_fst_map_update m k (fun _ => v)]
  · rw [if_neg hm, if_neg hm, List.map_append]
    rfl

theorem nodup_map_fst_upsert {β : Type} (m : List (String × β)) (k : String)
    (v : β) (h : (m.map Prod.fst).Nodup) :
    ((upsert m k v).map Prod.fst).Nodup := by
  rw [map_fst_upsert]
  by_cases hm : k ∈ m.map Prod.fst
  · rw [if_pos hm]
    exact h
  · rw [if_neg hm]
    refine List.Nodup.append h (List.nodup_singleton k) ?_
    intro x hx hx'
    rw [List.mem_singleton] at hx'
    subst hx'
    exact hm hx

theorem lookupGrouped_upsert2_self
    (m : List (String × List (String × Sum String SchemaNode)))
    (loc nm : String) (v : Sum String SchemaNode) :
    lookupGrouped (upsert2 m loc nm v) loc nm = some v := by
  unfold upsert2 lookupGrouped
  by_cases hm : loc ∈ m.map Prod.fst
  · rw [if_pos hm, lookup_map_update m loc (fun g => upsert g nm v)]
    rcases hs : m.lookup loc with _ | g
    · exact absurd (hs ▸ lookup_isSome_of_mem loc m hm) (by simp)
    · exact lookup_upsert_self g nm v
  · rw [if_neg hm, lookup_append_left_none loc m _ (lookup_not_mem loc m hm),
      List.lookup_cons_self]
    exact List.lookup_cons_self

theorem lookupGrouped_upsert2_ne
    (m : List (String × List (String × Sum String SchemaNode)))
    (loc nm loc' nm' : String) (v : Sum String SchemaNode)
    (h : ¬(loc' = loc ∧ nm' = nm)) :
    lookupGrouped (upsert2 m loc nm v) loc' nm' = lookupGrouped m loc' nm' := by
  unfold upsert2 lookupGrouped
  by_cases hloc : loc' = loc
  · subst hloc
    have hnm : nm' ≠ nm := fun hx => h ⟨rfl, hx⟩
    by_cases hm : loc' ∈ m.map Prod.fst
    · rw [if_pos hm, lookup_map_update m loc' (fun g => upsert g nm v)]
      rcases hs : m.lookup loc' with _ | g
      · rfl
      · exact lookup_upsert_ne g nm nm' v hnm
    · rw [if_neg hm, lookup_append_left_none loc' m _ (lookup_not_mem loc' m hm),
        List.lookup_cons_self, lookup_not_mem loc' m hm]
      show List.lookup nm' [(nm, v)] = none
      rw [lookup_cons_ne _ _ _ _ hnm]
      rfl
  · by_cases hm : loc ∈ m.map Prod.fst
    · rw [if_pos hm, lookup_map_update_ne m loc loc' (fun g => upsert g nm v) hloc]
    · rw [if_neg hm]
      congr 1
      induction m with
      | nil => rw [List.nil_append, lookup_cons_ne _ _ _ _ hloc]
      | cons p rest ih =>
        cases p with
        | mk a b =>
          by_cases hk' : loc' = a
          · subst hk'
            rw [List.cons_append, List.lookup_cons_self, List.lookup_cons_self]
          · rw [List.cons_append, lookup_cons_ne _ _ _ _ hk',
              lookup_cons_ne _ _ _ _ hk']
            exact ih (fun hx => hm (List.mem_cons_of_mem _ hx))

theorem getLast?_cons_eq {α : Type} (a : α) (l : List α) :
    (a :: l).getLast? = some (l.getLast?.getD a) := by
  induction l generalizing a with
  | nil => rfl
  | cons b t ih =>
    rw [List.getLast?_cons_cons, ih b]
    rfl

theorem groupParameters_foldl_lookup (input : GenInput) (ps : List SchemaNode)
    (acc : List (String × List (String × Sum String SchemaNode)))
    (loc nm : String) :
    lookupGrouped (ps.foldl (fun a p =>
      upsert2 a (effKey input p).1 (effKey input p).2 (paramSlot p)) acc) loc nm =
      (match (ps.filter (fun p => effKey input p == (loc, nm))).getLast? with
       | some p => some (paramSlot p)
       | none => lookupGrouped acc loc nm) := by
  induction ps generalizing acc with
  | nil => rfl
  | cons p rest ih =>
    rw [List.foldl_cons, ih]
    by_cases hp : effKey input p = (loc, nm)
    · rw [List.filter_cons_of_pos (by simpa using hp), getLast?_cons_eq]
      rcases hlast : (rest.filter (fun q => effKey input q == (loc, nm))).getLast?
        with _ | q
      · show lookupGrouped (upsert2 acc (effKey input p).1 (effKey input p).2
          (paramSlot p)) loc nm = some (paramSlot p)
        rw [hp]
        exact lookupGrouped_upsert2_self acc loc nm (paramSlot p)
      · rfl
    · rw [List.filter_cons_of_neg (by simpa using hp)]
      rcases hlast : (rest.filter (fun q => effKey input q == (loc, nm))).getLast?
        with _ | q
      · show lookupGrouped (upsert2 acc (effKey input p).1 (effKey input p).2
          (paramSlot p)) loc nm = lookupGrouped acc loc nm
        refine lookupGrouped_upsert2_ne acc (effKey input p).1 (effKey input p).2
          loc nm (paramSlot p) ?_
        intro hc
        apply hp
        have hfst : (effKey input p).1 = loc := hc.1.symm
        have hsnd : (effKey input p).2 = nm := hc.2.symm
        calc effKey input p = ((effKey input p).1, (effKey input p).2) := rfl
          _ = (loc, nm) := by rw [hfst, hsnd]
      · rfl

theorem upsert2_preserves
    (m : List (String × List (String × Sum String SchemaNode)))
    (loc nm : String) (v : Sum String SchemaNode)
    (h1 : (m.map Prod.fst).Nodup)
    (h2 : ∀ g ∈ m, (g.2.map Prod.fst).Nodup) :
    ((upsert2 m loc nm v).map Prod.fst).Nodup ∧
    ∀ g ∈ upsert2 m loc nm v, (g.2.map Prod.fst).Nodup := by
  unfold upsert2
  by_cases hm : loc ∈ m.map Prod.fst
  · rw [if_pos hm]
    constructor
    · rw [map_fst_map_update m loc (fun g => upsert g nm v)]
      exact h1
    · intro g hg
      rw [List.mem_map] at hg
      rcases hg with ⟨g0, hg0, rfl⟩
      by_cases hk : g0.1 = loc
      · rw [if_pos hk]
        exact nodup_map_fst_upsert _ _ _ (h2 g0 hg0)
      · rw [if_neg hk]
        exact h2 g0 hg0
  · rw [if_neg hm]
    constructor
    · rw [List.map_append]
      refine List.Nodup.append h1 (by simp) ?_
      intro x hx hx'
      simp only [List.map_cons, List.map_nil, List.mem_singleton] at hx'
      subst hx'
      exact hm hx
    · intro g hg
      rw [List.mem_append] at hg
      rcases hg with hg | hg
      · exact h2 g hg
      · rw [List.mem_singleton] at hg
        subst hg
        simp

theorem groupParameters_nodup (input : GenInput) (ps : List SchemaNode) :
    ((groupParameters input ps).map Prod.fst).Nodup ∧
    (∀ g ∈ groupParameters input ps, (g.2.map Prod.fst).Nodup) := by
  unfold groupParameters
  have main : ∀ (acc : List (String × List (String × Sum String SchemaNode))),
      (acc.map Prod.fst).Nodup → (∀ g ∈ acc, (g.2.map Prod.fst).Nodup) →
      ((ps.foldl (fun a p =>
        upsert2 a (effKey input p).1 (effKey input p).2 (paramSlot p)) acc).map
          Prod.fst).Nodup ∧
      ∀ g ∈ ps.foldl (fun a p =>
        upsert2 a (effKey input p).1 (effKey input p).2 (paramSlot p)) acc,
        (g.2.map Prod.fst).Nodup := by
    induction ps with
    | nil => exact fun acc h1 h2 => ⟨h1, h2⟩
    | cons p rest ih =>
      intro acc h1 h2
      rw [List.foldl_cons]
      have hp := upsert2_preserves acc (effKey input p).1 (effKey input p).2
        (paramSlot p) h1 h2
      exact ih _ hp.1 hp.2
  exact main [] (by simp) (by simp)

/-- C7: the parameter composer groups by effective (location, name) — inline
parameters by their own fields, referenced parameters by the fields recovered
from the component registry — with JS-assignment semantics: the grouped
structure has no duplicate location keys and no duplicate name keys within a
location (so exactly one field is emitted per pair), and the slot stored for a
pair is that of the last parameter in list order whose effective key matches;
the composer is total, raising no error. -/
theorem parameter_last_write_wins (input : GenInput) (ps : List SchemaNode)
    (loc nm : String) :
    ((groupParameters input ps).map Prod.fst).Nodup ∧
    (∀ g ∈ groupParameters input ps, (g.2.map Prod.fst).Nodup) ∧
    lookupGrouped (groupParameters input ps) loc nm =
      ((ps.filter (fun p => effKey input p == (loc, nm))).getLast?).map
        paramSlot := by
  refine ⟨(groupParameters_nodup input ps).1, (groupParameters_nodup input ps).2,
    ?_⟩
  unfold groupParameters
  rw [groupParameters_foldl_lookup]
  rcases (ps.filter (fun p => effKey input p == (loc, nm))).getLast? with _ | q
  · rfl
  · rfl

/-- C7 witness: two inline `query`/`limit` parameters — the grouped slot is
the second (string-schema) parameter, not the first. -/
theorem parameter_last_write_wins_witness :
    lookupGrouped (groupParameters (GenInput.doc ⟨none, none⟩) [qpInt, qpStr])
      "query" "limit" = some (paramSlot qpStr) :=
  ((parameter_last_write_wins (GenInput.doc ⟨none, none⟩) [qpInt, qpStr]
    "query" "limit").2.2).trans rfl

theorem methodEntryStep_table (input : GenInput) (components : Components)
    (raw : Bool) (fuel : Nat)
    (acc : String × List String × List (String × Operation))
    (fe : String × Operation) :
    (methodEntryStep input components raw fuel acc fe).2.2 =
      tableUpd acc.2.2 fe := by
  unfold methodEntryStep tableUpd
  by_cases h1 : isMethod fe.1 = true
  · by_cases h2 : truthyStr fe.2.operationId = true
    · simp [h1, h2]
    · simp [h1, h2]
  · simp [h1]

theorem foldl_methodEntryStep_table (input : GenInput) (components : Components)
    (raw : Bool) (fuel : Nat) (entries : List (String × Operation))
    (acc : String × List String × List (String × Operation)) :
    (entries.foldl (methodEntryStep input components raw fuel) acc).2.2 =
      entries.foldl tableUpd acc.2.2 := by
  induction entries generalizing acc with
  | nil => rfl
  | cons fe rest ih =>
    rw [List.foldl_cons, List.foldl_cons, ih, methodEntryStep_table]

theorem pathStep_table (input : GenInput) (components : Components)
    (raw : Bool) (fuel : Nat)
    (acc : String × List String × List (String × Operation))
    (pe : String × PathItem) :
    (pathStep input components raw fuel acc pe).2.2 =
      pe.2.entries.foldl tableUpd acc.2.2 := by
  unfold pathStep
  rcases hps : pe.2.parameters with _ | ps <;>
    simp [hps, foldl_methodEntryStep_table]

theorem transformPaths_table (input : GenInput) (components : Components)
    (raw : Bool) (fuel : Nat) (paths : List (String × PathItem))
    (ops : List (String × Operation)) :
    (transformPaths input components raw fuel paths ops).2.2 =
      (paths.flatMap (fun pe => pe.2.entries)).foldl tableUpd ops := by
  unfold transformPaths
  have main : ∀ (acc : String × List String × List (String × Operation)),
      (paths.foldl (pathStep input components raw fuel) acc).2.2 =
        (paths.flatMap (fun pe => pe.2.entries)).foldl tableUpd acc.2.2 := by
    induction paths with
    | nil => intro acc; rfl
    | cons pe rest ih =>
      intro acc
      rw [List.foldl_cons, ih, List.flatMap_cons, List.foldl_append,
        pathStep_table]
  exact main ("", [], ops)

theorem foldl_tableUpd_lookup (entries : List (String × Operation))
    (t : List (String × Operation)) (id : String) :
    (entries.foldl tableUpd t).lookup id =
      (match (entries.filter (fun fe => isMethod fe.1 &&
          truthyStr fe.2.operationId && (fe.2.operationId.getD "" == id))).getLast? with
       | some fe => some fe.2
       | none => t.lookup id) := by
  induction entries generalizing t with
  | nil => rfl
  | cons fe rest ih =>
    rw [List.foldl_cons, ih]
    by_cases hcond : (isMethod fe.1 && truthyStr fe.2.operationId) = true
    · by_cases hid : fe.2.operationId.getD "" = id
      · rw [List.filter_cons_of_pos (by simp [hcond, hid]), getLast?_cons_eq]
        generalize (rest.filter (fun fe => isMethod fe.1 &&
            truthyStr fe.2.operationId && (fe.2.operationId.getD "" == id))).getLast? = r
        cases r with
        | none => ?_
        | some q => ?_
        · show (tableUpd t fe).lookup id = some fe.2
          unfold tableUpd
          rw [if_pos hcond, hid]
          exact lookup_upsert_self t id fe.2
        · rfl
      · rw [List.filter_cons_of_neg (by simp [hid])]
        generalize (rest.filter (fun fe => isMethod fe.1 &&
            truthyStr fe.2.operationId && (fe.2.operationId.getD "" == id))).getLast? = r
        cases r with
        | none => ?_
        | some q => ?_
        · show (tableUpd t fe).lookup id = t.lookup id
          unfold tableUpd
          rw [if_pos hcond]
          exact lookup_upsert_ne t _ id fe.2 (fun hx => hid hx.symm)
        · rfl
    · rw [List.filter_cons_of_neg (by simp [hcond])]
      generalize (rest.filter (fun fe => isMethod fe.1 &&
          truthyStr fe.2.operationId && (fe.2.operationId.getD "" == id))).getLast? = r
      cases r with
      | none => ?_
      | some q => ?_
      · show (tableUpd t fe).lookup id = t.lookup id
        unfold tableUpd
        rw [if_neg hcond]
      · rfl

theorem foldl_tableUpd_nodup (entries : List (String × Operation))
    (t : List (String × Operation)) (h : (t.map Prod.fst).Nodup) :
    (((entries.foldl tableUpd t).map Prod.fst)).Nodup := by
  induction entries generalizing t with
  | nil => exact h
  | cons fe rest ih =>
    rw [List.foldl_cons]
    refine ih (tableUpd t fe) ?_
    unfold tableUpd
    by_cases hcond : (isMethod fe.1 && truthyStr fe.2.operationId) = true
    · rw [if_pos hcond]
      exact nodup_map_fst_upsert t _ fe.2 h
    · rw [if_neg hcond]
      exact h

theorem hoistedOps_eq_flat (id : String) (paths : List (String × PathItem)) :
    hoistedOps id paths =
      ((paths.flatMap (fun pe => pe.2.entries)).filter
        (fun fe => isMethod fe.1 && truthyStr fe.2.operationId &&
          (fe.2.operationId.getD "" == id))).map Prod.snd := by
  unfold hoistedOps
  induction paths with
  | nil => rfl
  | cons pe rest ih =>
    rw [List.flatMap_cons, List.flatMap_cons, List.filter_append,
      List.map_append, ih]

/-- C1 (amended): when paths are walked, every method site whose operation
declares a (truthy) identifier emits a by-name reference into the operations
table — never the inline expansion — and the operations table ends up with no
duplicate identifiers (exactly one entry per identifier); the entry registered
under an identifier is the operation of the LAST occurrence in traversal
order (the JS assignment overwrites, so the last occurrence wins, not the
first). -/
theorem operation_hoisting (input : GenInput) (components : Components)
    (raw : Bool) (fuel : Nat) (paths : List (String × PathItem)) (id : String) :
    (((transformPaths input components raw fuel paths []).2.2).map
      Prod.fst).Nodup ∧
    ((transformPaths input components raw fuel paths []).2.2).lookup id =
      (hoistedOps id paths).getLast? ∧
    (∀ acc fe, isMethod fe.1 = true → fe.2.operationId = some id → id ≠ "" →
      (methodEntryStep input components raw fuel acc fe).1 =
        acc.1 ++ "\"" ++ fe.1 ++ "\": operations[\"" ++ id ++ "\"];\n") := by
  refine ⟨?_, ?_, ?_⟩
  · rw [transformPaths_table]
    exact foldl_tableUpd_nodup _ [] (by simp)
  · rw [transformPaths_table, foldl_tableUpd_lookup, hoistedOps_eq_flat,
      List.getLast?_map]
    generalize ((paths.flatMap (fun pe => pe.2.entries)).filter
        (fun fe => isMethod fe.1 && truthyStr fe.2.operationId &&
          (fe.2.operationId.getD "" == id))).getLast? = r
    cases r with
    | none => rfl
    | some q => rfl
  · intro acc fe h1 h2 h3
    unfold methodEntryStep
    rw [h2]
    rw [if_pos h1, if_pos (show truthyStr (some id) = true by
      simp [truthyStr, h3])]
    rfl

/-- C1 witness: a method entry with identifier `op1` emits the by-name
reference text. -/
theorem operation_hoisting_witness :
    (methodEntryStep (GenInput.doc ⟨none, none⟩) ⟨none, none, none⟩ false 0
      ("", [], []) ("get", opFirst)).1 = "\"get\": operations[\"op1\"];\n" :=
  ((operation_hoisting (GenInput.doc ⟨none, none⟩) ⟨none, none, none⟩ false 0
    [] "op1").2.2 ("", [], []) ("get", opFirst) (by decide) rfl
    (by decide)).trans (by decide)

/-- C1 counterexample: two paths share the identifier `op1`; the operation
registered in the table is the second occurrence (description `second`), not
the first occurrence (description `first`), so "first occurrence wins" is
false on the code. -/
theorem operation_hoisting_counterexample :
    ((transformPaths (GenInput.doc ⟨some twoPathsShared, none⟩)
        ⟨none, none, none⟩ false 1 twoPathsShared []).2.2.lookup "op1").map
      Operation.description = some (some "second") ∧
    (hoistedOps "op1" twoPathsShared).head?.map Operation.description =
      some (some "first") ∧
    (some "second" : Option String) ≠ some "first" := by
  refine ⟨by decide, by decide, by decide⟩
